import Mathlib

/-!
Verification of the chargeback-dashboard pipeline (src/streamlit_app.py).

The embedding models the derivation core of the app:
  * row cleaning (dropping rows whose FIRST_STATEMENT_DATE failed to parse,
    lines 326-330),
  * the per-row classifier columns CB_FRACTION, MONTHS_PAID, STATUS
    (lines 332-340),
  * the segment dataframes df_ip and df_nip (lines 359-360),
  * the sidebar default date range (lines 343-345),
  * the per-segment headline metrics of render_segment (lines 220-223),
  * the time-series resampling of render_all and render_segment
    (lines 154-161 and 242-252).

Monetary amounts are modelled as exact rationals.  Dates are modelled as
integer day ordinals (days since 1970-01-01); a missing date (pandas NaT)
is Option.none.  A pandas resample bucket is identified by an integer
period index: for Day the ordinal itself, for Week the index of the
Monday-to-Sunday week (pandas W = W-SUN), for Month the count of calendar
months since year 0 computed by the standard civil-calendar conversion.
Consecutive integers denote consecutive periods, so the pandas behaviour
of emitting one row for every period between the first and the last
observed one is the integer range between the least and greatest label.
-/

/-- Status labels of the STATUS column: "Active" or "Charged Back". -/
inductive Status where
  | active
  | chargedBack
deriving DecidableEq, Repr

/-- One row of the dataframe returned by load_data, after the
FIRST_STATEMENT_DATE column went through pd.to_datetime(errors="coerce"):
the date is none when the raw string failed to parse (NaT). -/
structure RawRow where
  policy_id : ℤ
  first_statement_date : Option ℤ
  advance_amount : ℚ
  chargeback_amount : ℚ
deriving DecidableEq, Repr

/-- A per-policy summary row after the dropna step: the date is present. -/
structure Summary where
  policy_id : ℤ
  first_statement_date : ℤ
  advance_amount : ℚ
  chargeback_amount : ℚ
deriving DecidableEq, Repr

/-- Line 330: df = df.dropna(subset=["FIRST_STATEMENT_DATE"]). -/
def cleanRows (rows : List RawRow) : List RawRow :=
  rows.filter (fun r => r.first_statement_date.isSome)

/-- Line 327: bad = df["FIRST_STATEMENT_DATE"].isna().sum(), the diagnostic
count reported in the warning of line 329. -/
def droppedCount (rows : List RawRow) : ℕ :=
  rows.countP (fun r => r.first_statement_date.isNone)

/-- The population entering classification: rows surviving the dropna,
with the parsed date made total. -/
def toSummaries (rows : List RawRow) : List Summary :=
  rows.filterMap (fun r =>
    r.first_statement_date.map (fun d =>
      { policy_id := r.policy_id
        first_statement_date := d
        advance_amount := r.advance_amount
        chargeback_amount := r.chargeback_amount }))

/-- The Python builtin round on an exact value: nearest integer, ties to
the even integer (banker rounding), as used on line 337. -/
def pyRound (q : ℚ) : ℤ :=
  if q - ⌊q⌋ < 1/2 then ⌊q⌋
  else if 1/2 < q - ⌊q⌋ then ⌊q⌋ + 1
  else if ⌊q⌋ % 2 = 0 then ⌊q⌋ else ⌊q⌋ + 1

/-- Lines 332-336: CB_FRACTION = min(abs(cb)/adv, 1.0) if adv > 0 else 0. -/
def cbFraction (r : Summary) : ℚ :=
  if r.advance_amount > 0 then min (|r.chargeback_amount| / r.advance_amount) 1
  else 0

/-- Line 337: MONTHS_PAID = round(12 * (1 - CB_FRACTION)). -/
def monthsPaid (r : Summary) : ℤ :=
  pyRound (12 * (1 - cbFraction r))

/-- Lines 338-340: STATUS = "Active" if cb == 0 else "Charged Back". -/
def status (r : Summary) : Status :=
  if r.chargeback_amount = 0 then .active else .chargedBack

/-- Line 359: df_ip = df[(STATUS == "Charged Back") & (MONTHS_PAID == 0)]. -/
def segIP (l : List Summary) : List Summary :=
  l.filter (fun r => decide (status r = .chargedBack ∧ monthsPaid r = 0))

/-- Line 360: df_nip = df[(STATUS == "Charged Back") & (MONTHS_PAID > 0)]. -/
def segNIP (l : List Summary) : List Summary :=
  l.filter (fun r => decide (status r = .chargedBack ∧ 0 < monthsPaid r))

/-- Least element of a list of integers (pandas Series.min: NaT on empty). -/
def listMin : List ℤ → Option ℤ
  | [] => none
  | x :: xs =>
    match listMin xs with
    | none => some x
    | some m => some (min x m)

/-- Greatest element of a list of integers (pandas Series.max). -/
def listMax : List ℤ → Option ℤ
  | [] => none
  | x :: xs =>
    match listMax xs with
    | none => some x
    | some m => some (max x m)

/-- Day ordinal of 2024-01-01, the fixed reference date of line 345. -/
def epoch2024 : ℤ := 19723

/-- Lines 343-345: min_date = df[...].min().date(); max_date = .max().date();
default_start = max(min_date, 2024-01-01).  On an empty frame Series.min
is NaT and the NaT value makes the date widget setup raise, so the
computation is modelled as fallible: none is the fault. -/
def dateFilterBounds (l : List Summary) : Option (ℤ × ℤ) :=
  match listMin (l.map (·.first_statement_date)),
        listMax (l.map (·.first_statement_date)) with
  | some lo, some hi => some (max lo epoch2024, hi)
  | _, _ => none

/-- Lines 220-223 of render_segment: total row count, total chargeback,
average chargeback per policy (0 when the segment is empty), average
months paid (0 when the segment is empty). -/
def segmentMetrics (l : List Summary) : ℕ × ℚ × ℚ × ℚ :=
  (l.length,
   (l.map (·.chargeback_amount)).sum,
   if 0 < l.length then (l.map (·.chargeback_amount)).sum / l.length else 0,
   if 0 < l.length then (l.map (fun r => (monthsPaid r : ℚ))).sum / l.length
   else 0)

/-- The three aggregation intervals of the radio widget: Day, Week, Month
(pandas frequencies "D", "W", "MS"). -/
inductive Freq where
  | day
  | week
  | month
deriving DecidableEq, Repr

/-- Index of the calendar month containing day ordinal t: 12 * year + the
zero-based month, via the standard civil-from-days conversion of the
proleptic Gregorian calendar (pandas "MS" buckets are calendar months). -/
def monthIndex (t : ℤ) : ℤ :=
  let z := t + 719468
  let era := z / 146097
  let doe := z - era * 146097
  let yoe := (doe - doe / 1460 + doe / 36524 - doe / 146096) / 365
  let y := yoe + era * 400
  let doy := doe - (365 * yoe + yoe / 4 - yoe / 100)
  let mp := (5 * doy + 2) / 153
  let m := mp + (if mp < 10 then 3 else -9)
  12 * (if m ≤ 2 then y + 1 else y) + (m - 1)

/-- The period label of a day ordinal under each frequency: the day itself
for "D"; for "W" (= W-SUN, weeks running Monday to Sunday, 1970-01-04
being a Sunday at ordinal 3) the index of the week; for "MS" the index of
the calendar month. -/
def bucketOf : Freq → ℤ → ℤ
  | .day, t => t
  | .week, t => (t + 3) / 7
  | .month, t => monthIndex t

/-- One row of the resampled frame, carrying the aggregates computed by
render_all (sum of ADVANCE_AMOUNT, abs of the sum of CHARGEBACK_AMOUNT)
and by render_segment (count of POLICY_ID, mean of MONTHS_PAID; the mean
of an empty bucket is NaN, modelled as none). -/
structure TimeBucket where
  start : ℤ
  sumAdvance : ℚ
  sumChargebackAbs : ℚ
  count : ℕ
  meanMonths : Option ℚ
deriving Repr

/-- The records of the segment falling in the bucket labelled k. -/
def bucketMembers (f : Freq) (k : ℤ) (l : List Summary) : List Summary :=
  l.filter (fun r => decide (bucketOf f r.first_statement_date = k))

/-- The aggregates of one resample bucket (lines 154-161, 242-252). -/
def mkBucket (f : Freq) (k : ℤ) (l : List Summary) : TimeBucket :=
  { start := k
    sumAdvance := ((bucketMembers f k l).map (·.advance_amount)).sum
    sumChargebackAbs := |((bucketMembers f k l).map (·.chargeback_amount)).sum|
    count := (bucketMembers f k l).length
    meanMonths :=
      if (bucketMembers f k l).length = 0 then none
      else some (((bucketMembers f k l).map
        (fun r => (monthsPaid r : ℚ))).sum / (bucketMembers f k l).length) }

/-- The integers from lo to hi inclusive, in increasing order. -/
def intRange (lo hi : ℤ) : List ℤ :=
  (List.range (hi + 1 - lo).toNat).map (fun (i : ℕ) => lo + (i : ℤ))

/-- The labels of the resampled frame: pandas emits one row per period
from the period of the least date to the period of the greatest date,
empty periods included. -/
def resampleKeys (f : Freq) (l : List Summary) : List ℤ :=
  match listMin (l.map (fun r => bucketOf f r.first_statement_date)),
        listMax (l.map (fun r => bucketOf f r.first_statement_date)) with
  | some lo, some hi => intRange lo hi
  | _, _ => []

/-- The resampled time series of a segment under a frequency. -/
def resample (f : Freq) (l : List Summary) : List TimeBucket :=
  (resampleKeys f l).map (fun k => mkBucket f k l)

/-- Rounding half away from zero, modelled from the spec wording of the
months_paid tie-break policy (spec section 4.2), for comparison with the
rounding performed by the program. -/
def roundHalfAwayFromZero (q : ℚ) : ℤ :=
  if 0 ≤ q then ⌊q + 1/2⌋ else -⌊-q + 1/2⌋

/-! ### Helper lemmas about the classifier arithmetic -/

theorem cbFraction_nonneg (r : Summary) : 0 ≤ cbFraction r := by
  unfold cbFraction
  split_ifs with h
  · exact le_min (div_nonneg (abs_nonneg _) h.le) zero_le_one
  · exact le_refl 0

theorem cbFraction_le_one (r : Summary) : cbFraction r ≤ 1 := by
  unfold cbFraction
  split_ifs with h
  · exact min_le_right _ _
  · exact zero_le_one

theorem pyRound_near (q : ℚ) : |q - pyRound q| ≤ 1/2 := by
  have h0 : ((⌊q⌋ : ℤ) : ℚ) ≤ q := Int.floor_le q
  have h1 : q < ⌊q⌋ + 1 := Int.lt_floor_add_one q
  unfold pyRound
  split_ifs with ha hb hc
  · rw [abs_of_nonneg (by linarith)]
    linarith
  · rw [abs_of_nonpos (by push_cast; linarith)]
    push_cast
    linarith
  · rw [abs_of_nonneg (by linarith)]
    linarith
  · rw [abs_of_nonpos (by push_cast; linarith)]
    push_cast
    linarith

theorem pyRound_tie_even (q : ℚ) (h : |q - pyRound q| = 1/2) :
    pyRound q % 2 = 0 := by
  have h0 : ((⌊q⌋ : ℤ) : ℚ) ≤ q := Int.floor_le q
  have h1 : q < ⌊q⌋ + 1 := Int.lt_floor_add_one q
  unfold pyRound at *
  split_ifs at * with ha hb hc
  · rw [abs_of_nonneg (by linarith)] at h
    linarith
  · rw [abs_of_nonpos (by push_cast; linarith)] at h
    push_cast at h
    linarith
  · exact hc
  · omega

theorem pyRound_nonneg (q : ℚ) (h : 0 ≤ q) : 0 ≤ pyRound q := by
  have h2 : 0 ≤ ⌊q⌋ := Int.floor_nonneg.mpr h
  unfold pyRound
  split_ifs <;> omega

theorem pyRound_le_twelve (q : ℚ) (h : q ≤ 12) : pyRound q ≤ 12 := by
  have h0 : ((⌊q⌋ : ℤ) : ℚ) ≤ q := Int.floor_le q
  have h2 : ⌊q⌋ ≤ 12 := by
    have : ((⌊q⌋ : ℤ) : ℚ) ≤ ((12 : ℤ) : ℚ) := by push_cast; linarith
    exact_mod_cast this
  unfold pyRound
  split_ifs with ha hb hc
  · exact h2
  · have : ((⌊q⌋ : ℤ) : ℚ) < ((12 : ℤ) : ℚ) := by push_cast; linarith
    have h9 : ⌊q⌋ < 12 := by exact_mod_cast this
    omega
  · exact h2
  · have hq : q - ⌊q⌋ = 1/2 := le_antisymm (not_lt.mp hb) (not_lt.mp ha)
    have : ((⌊q⌋ : ℤ) : ℚ) < ((12 : ℤ) : ℚ) := by push_cast; linarith
    have h9 : ⌊q⌋ < 12 := by exact_mod_cast this
    omega

theorem pyRound_lt_twelve (q : ℚ) (h : q < 23/2) : pyRound q < 12 := by
  have h0 : ((⌊q⌋ : ℤ) : ℚ) ≤ q := Int.floor_le q
  have h2 : ⌊q⌋ < 12 := by
    have : ((⌊q⌋ : ℤ) : ℚ) < ((12 : ℤ) : ℚ) := by push_cast; linarith
    exact_mod_cast this
  unfold pyRound
  split_ifs with ha hb hc
  · exact h2
  · have : ((⌊q⌋ : ℤ) : ℚ) < ((11 : ℤ) : ℚ) := by push_cast; linarith
    have h9 : ⌊q⌋ < 11 := by exact_mod_cast this
    omega
  · exact h2
  · have hq : q - ⌊q⌋ = 1/2 := le_antisymm (not_lt.mp hb) (not_lt.mp ha)
    have : ((⌊q⌋ : ℤ) : ℚ) < ((11 : ℤ) : ℚ) := by push_cast; linarith
    have h9 : ⌊q⌋ < 11 := by exact_mod_cast this
    omega

theorem pyRound_intCast (n : ℤ) : pyRound ((n : ℚ)) = n := by
  unfold pyRound
  rw [Int.floor_intCast, sub_self]
  norm_num

/-! ### C3: the recovery fraction -/

/-- C3: the classifier sets cb_fraction to 0 when advance_amount is not
positive (never dividing), and otherwise to the chargeback magnitude over
the advance capped at 1; the result always lies in the unit interval. -/
theorem c3_cb_fraction_guard_and_range (r : Summary) :
    (cbFraction r =
      if r.advance_amount ≤ 0 then 0
      else min (|r.chargeback_amount| / r.advance_amount) 1) ∧
    0 ≤ cbFraction r ∧ cbFraction r ≤ 1 := by
  refine ⟨?_, cbFraction_nonneg r, cbFraction_le_one r⟩
  unfold cbFraction
  rcases lt_or_le 0 r.advance_amount with h | h
  · rw [if_pos h, if_neg (not_le.mpr h)]
  · rw [if_neg (not_lt.mpr h), if_pos h]

/-! ### C4: the status label -/

/-- C4: a classified summary is Active exactly when its chargeback amount
is zero, and Charged Back exactly when it is nonzero. -/
theorem c4_status_iff_zero_chargeback (r : Summary) :
    (status r = .active ↔ r.chargeback_amount = 0) ∧
    (status r = .chargedBack ↔ r.chargeback_amount ≠ 0) := by
  unfold status
  split_ifs with h <;> simp [h]

/-! ### C9: behaviour on an empty population -/

/-- C9: on an empty population the resampler and the segment metrics do
return empty and zero-valued results, but the sidebar date-bound
computation of line 343 does not: Series.min of the empty date column is
NaT and the date widget setup faults on it, modelled here by the none
result.  This records the divergence between the code and the claim. -/
theorem c9_empty_population_fault :
    (∀ f : Freq, resample f [] = []) ∧
    segmentMetrics [] = (0, 0, 0, 0) ∧
    dateFilterBounds [] = none :=
  ⟨fun _ => rfl, rfl, rfl⟩

/-! ### C8: dropping rows with unparseable dates -/

theorem toSummaries_cleanRows (rows : List RawRow) :
    toSummaries rows = toSummaries (cleanRows rows) := by
  induction rows with
  | nil => rfl
  | cons r rs ih =>
    cases h : r.first_statement_date with
    | none => simpa [toSummaries, cleanRows, List.filterMap_cons, List.filter_cons, h] using ih
    | some d => simpa [toSummaries, cleanRows, List.filterMap_cons, List.filter_cons, h] using ih

/-- C8: the rows whose date failed to parse are removed before
classification (classifying the raw rows equals classifying the cleaned
rows), every surviving row has a parsed date, the diagnostic drop count
plus the survivor count is the total, and cleaning is stable: cleaning
the survivors again drops nothing and changes nothing. -/
theorem c8_invalid_dates_dropped (rows : List RawRow) :
    toSummaries rows = toSummaries (cleanRows rows) ∧
    (cleanRows rows).length + droppedCount rows = rows.length ∧
    (∀ r ∈ cleanRows rows, r.first_statement_date.isSome) ∧
    cleanRows (cleanRows rows) = cleanRows rows ∧
    droppedCount (cleanRows rows) = 0 := by
  refine ⟨toSummaries_cleanRows rows, ?_, ?_, ?_, ?_⟩
  · induction rows with
    | nil => rfl
    | cons r rs ih =>
      cases h : r.first_statement_date with
      | none =>
        simp [cleanRows, droppedCount, List.filter_cons, List.countP_cons, h] at ih ⊢
        omega
      | some d =>
        simp [cleanRows, droppedCount, List.filter_cons, List.countP_cons, h] at ih ⊢
        omega
  · intro r hr
    exact (List.mem_filter.mp hr).2
  · rw [cleanRows, cleanRows, List.filter_filter]
    simp only [Bool.and_self]
  · rw [droppedCount, List.countP_eq_zero]
    intro r hr
    have h2 := (List.mem_filter.mp hr).2
    cases hd : r.first_statement_date with
    | none => rw [hd] at h2; simp at h2
    | some d => simp [hd]

/-! ### C10: Active policies -/

/-- C10: an Active summary has zero chargeback, hence cb_fraction 0 and
months_paid 12, and it belongs to neither the InPolicy nor the
NonInPolicy segment of any population. -/
theorem c10_active_full_months (r : Summary) (h : status r = .active) :
    cbFraction r = 0 ∧ monthsPaid r = 12 ∧
    ∀ l : List Summary, r ∉ segIP l ∧ r ∉ segNIP l := by
  have hcb : r.chargeback_amount = 0 := by
    by_contra hne
    rw [status, if_neg hne] at h
    exact Status.noConfusion h
  have hf : cbFraction r = 0 := by
    unfold cbFraction
    split_ifs with ha
    · rw [hcb, abs_zero, zero_div]
      exact min_eq_left zero_le_one
    · rfl
  have hm : monthsPaid r = 12 := by
    rw [monthsPaid, hf, show (12 : ℚ) * (1 - 0) = ((12 : ℤ) : ℚ) by norm_num]
    exact pyRound_intCast 12
  have hnc : status r ≠ .chargedBack := by
    rw [h]
    exact fun hx => Status.noConfusion hx
  refine ⟨hf, hm, fun l => ⟨?_, ?_⟩⟩
  · intro hmem
    exact hnc (of_decide_eq_true (List.mem_filter.mp hmem).2).1
  · intro hmem
    exact hnc (of_decide_eq_true (List.mem_filter.mp hmem).2).1

/-- Concrete Active summary used to witness C10. -/
def c10W : Summary := ⟨1, 0, 5, 0⟩

/-- C10 witness: the theorem applied to a concrete Active summary. -/
theorem c10_active_full_months_witness :
    status c10W = .active ∧
    (cbFraction c10W = 0 ∧ monthsPaid c10W = 12 ∧
      ∀ l : List Summary, c10W ∉ segIP l ∧ c10W ∉ segNIP l) :=
  ⟨by simp [status, c10W], c10_active_full_months c10W (by simp [status, c10W])⟩

/-! ### C5: months paid of charged-back policies -/

/-- A charged-back summary with no recorded advance. -/
def c5Row : Summary := ⟨1, 0, 0, -100⟩

/-- C5 counterexample: a summary with zero advance and a nonzero
chargeback is Charged Back yet has months_paid = 12, refuting the claim
that every Charged Back summary has months_paid below 12. -/
theorem c5_counterexample :
    status c5Row = .chargedBack ∧ ¬ monthsPaid c5Row < 12 := by
  have h1 : cbFraction c5Row = 0 := by
    unfold cbFraction c5Row
    norm_num
  have h2 : monthsPaid c5Row = 12 := by
    rw [monthsPaid, h1, show (12 : ℚ) * (1 - 0) = ((12 : ℤ) : ℚ) by norm_num]
    exact pyRound_intCast 12
  constructor
  · unfold status c5Row
    norm_num
  · omega

/-- C5 (amended): a Charged Back summary has months_paid below 12
provided its advance is positive and more than 1/24 of the advance was
charged back; without that proviso months_paid can be 12. -/
theorem c5_amended_months_paid_lt (r : Summary) (_hs : status r = .chargedBack)
    (hpos : 0 < r.advance_amount)
    (hbig : r.advance_amount < 24 * |r.chargeback_amount|) :
    monthsPaid r < 12 := by
  have hf : 1/24 < cbFraction r := by
    unfold cbFraction
    rw [if_pos hpos]
    refine lt_min ?_ (by norm_num)
    rw [lt_div_iff₀ hpos]
    linarith
  have hq : 12 * (1 - cbFraction r) < 23/2 := by linarith
  rw [monthsPaid]
  exact pyRound_lt_twelve _ hq

/-- Concrete fully-charged-back summary used to witness the amended C5. -/
def c5W : Summary := ⟨1, 0, 1, -1⟩

/-- C5 witness: the amended theorem applied to a concrete summary. -/
theorem c5_amended_months_paid_lt_witness :
    status c5W = .chargedBack ∧ 0 < c5W.advance_amount ∧
    c5W.advance_amount < 24 * |c5W.chargeback_amount| ∧ monthsPaid c5W < 12 :=
  ⟨by simp [status, c5W], by simp [c5W], by simp [c5W],
   c5_amended_months_paid_lt c5W (by simp [status, c5W]) (by simp [c5W])
     (by simp [c5W])⟩

/-! ### C1: how months_paid is rounded -/

/-- A summary charged back by exactly one eighth of the advance, putting
12 * (1 - cb_fraction) on the exact tie 10.5. -/
def c1Row : Summary := ⟨1, 0, 8, -1⟩

theorem c1Row_fraction : cbFraction c1Row = 1/8 := by
  unfold cbFraction c1Row
  rw [if_pos (by norm_num)]
  rw [show |(-1 : ℚ)| / (8 : ℚ) = 1/8 by norm_num]
  exact min_eq_left (by norm_num)

/-- C1 counterexample: at cb_fraction = 1/8 the value 12 * (1 - 1/8) is
exactly 10.5; the program rounds it to 10 (ties to even), while rounding
half away from zero as claimed would give 11. -/
theorem c1_counterexample :
    monthsPaid c1Row = 10 ∧
    roundHalfAwayFromZero (12 * (1 - cbFraction c1Row)) = 11 ∧
    monthsPaid c1Row ≠ roundHalfAwayFromZero (12 * (1 - cbFraction c1Row)) := by
  have hq : 12 * (1 - cbFraction c1Row) = 21/2 := by rw [c1Row_fraction]; norm_num
  have hfloor : ⌊(21/2 : ℚ)⌋ = 10 := Int.floor_eq_iff.mpr (by norm_num)
  have hm : monthsPaid c1Row = 10 := by
    rw [monthsPaid, hq]
    unfold pyRound
    rw [hfloor]
    norm_num
  have hr : roundHalfAwayFromZero (12 * (1 - cbFraction c1Row)) = 11 := by
    rw [hq]
    unfold roundHalfAwayFromZero
    rw [if_pos (by norm_num : (0 : ℚ) ≤ 21/2)]
    rw [show (21/2 : ℚ) + 1/2 = ((11 : ℤ) : ℚ) by norm_num, Int.floor_intCast]
  exact ⟨hm, hr, by rw [hm, hr]; decide⟩

/-- C1 (amended): months_paid is 12 * (1 - cb_fraction) rounded to the
nearest integer with ties going to the even integer (the Python builtin
rounding), and it always lies in [0, 12]: the rounded value differs from
the exact one by at most 1/2, is even whenever the difference is exactly
1/2, and is an integer between 0 and 12. -/
theorem c1_months_paid_half_even (r : Summary) :
    |12 * (1 - cbFraction r) - (monthsPaid r : ℚ)| ≤ 1/2 ∧
    (|12 * (1 - cbFraction r) - (monthsPaid r : ℚ)| = 1/2 →
      monthsPaid r % 2 = 0) ∧
    0 ≤ monthsPaid r ∧ monthsPaid r ≤ 12 := by
  have h0 := cbFraction_nonneg r
  have h1 := cbFraction_le_one r
  have hq0 : (0 : ℚ) ≤ 12 * (1 - cbFraction r) := by linarith
  have hq12 : 12 * (1 - cbFraction r) ≤ 12 := by linarith
  exact ⟨pyRound_near _, pyRound_tie_even _, pyRound_nonneg _ hq0,
    pyRound_le_twelve _ hq12⟩

/-! ### Helper lemmas about the resampling machinery -/

theorem listMin_eq_none {l : List ℤ} : listMin l = none ↔ l = [] := by
  cases l with
  | nil => simp [listMin]
  | cons x xs =>
    simp only [listMin]
    cases listMin xs <;> simp

theorem listMax_eq_none {l : List ℤ} : listMax l = none ↔ l = [] := by
  cases l with
  | nil => simp [listMax]
  | cons x xs =>
    simp only [listMax]
    cases listMax xs <;> simp

theorem listMin_le {l : List ℤ} {m : ℤ} (h : listMin l = some m) :
    ∀ x ∈ l, m ≤ x := by
  induction l generalizing m with
  | nil => simp [listMin] at h
  | cons x xs ih =>
    intro y hy
    rw [listMin] at h
    rcases List.mem_cons.mp hy with rfl | hmem
    · cases hx : listMin xs with
      | none => rw [hx] at h; simp at h; omega
      | some m' => rw [hx] at h; simp at h; omega
    · cases hx : listMin xs with
      | none =>
        have hnil := listMin_eq_none.mp hx
        subst hnil
        simp at hmem
      | some m' =>
        rw [hx] at h
        simp at h
        have h2 := ih hx y hmem
        omega

theorem le_listMax {l : List ℤ} {m : ℤ} (h : listMax l = some m) :
    ∀ x ∈ l, x ≤ m := by
  induction l generalizing m with
  | nil => simp [listMax] at h
  | cons x xs ih =>
    intro y hy
    rw [listMax] at h
    rcases List.mem_cons.mp hy with rfl | hmem
    · cases hx : listMax xs with
      | none => rw [hx] at h; simp at h; omega
      | some m' => rw [hx] at h; simp at h; omega
    · cases hx : listMax xs with
      | none =>
        have hnil := listMax_eq_none.mp hx
        subst hnil
        simp at hmem
      | some m' =>
        rw [hx] at h
        simp at h
        have h2 := ih hx y hmem
        omega

theorem mem_intRange {lo hi k : ℤ} : k ∈ intRange lo hi ↔ lo ≤ k ∧ k ≤ hi := by
  unfold intRange
  simp only [List.mem_map, List.mem_range]
  constructor
  · rintro ⟨i, hi', rfl⟩
    omega
  · intro hk
    exact ⟨(k - lo).toNat, by omega, by omega⟩

theorem intRange_sorted (lo hi : ℤ) : List.Pairwise (· < ·) (intRange lo hi) := by
  unfold intRange
  refine List.Pairwise.map _ ?_ (List.pairwise_lt_range _)
  intro a b hab
  omega

theorem intRange_nodup (lo hi : ℤ) : (intRange lo hi).Nodup :=
  (intRange_sorted lo hi).imp (fun h => ne_of_lt h)

theorem resampleKeys_sorted (f : Freq) (l : List Summary) :
    (resampleKeys f l).Pairwise (· < ·) := by
  unfold resampleKeys
  cases listMin (l.map (fun r => bucketOf f r.first_statement_date)) with
  | none => simp
  | some lo =>
    cases listMax (l.map (fun r => bucketOf f r.first_statement_date)) with
    | none => simp
    | some hi => exact intRange_sorted lo hi

theorem mem_resampleKeys_iff (f : Freq) (l : List Summary) {lo hi : ℤ}
    (hlo : listMin (l.map (fun r => bucketOf f r.first_statement_date)) = some lo)
    (hhi : listMax (l.map (fun r => bucketOf f r.first_statement_date)) = some hi)
    (k : ℤ) : k ∈ resampleKeys f l ↔ lo ≤ k ∧ k ≤ hi := by
  unfold resampleKeys
  rw [hlo, hhi]
  exact mem_intRange

theorem resampleKeys_count_one (f : Freq) (l : List Summary) :
    ∀ r ∈ l, (resampleKeys f l).count (bucketOf f r.first_statement_date) = 1 := by
  intro r hr
  have hmem : bucketOf f r.first_statement_date ∈
      l.map (fun r => bucketOf f r.first_statement_date) :=
    List.mem_map_of_mem _ hr
  cases hlo : listMin (l.map (fun r => bucketOf f r.first_statement_date)) with
  | none =>
    have := List.map_eq_nil_iff.mp (listMin_eq_none.mp hlo)
    subst this
    simp at hr
  | some lo =>
    cases hhi : listMax (l.map (fun r => bucketOf f r.first_statement_date)) with
    | none =>
      have := List.map_eq_nil_iff.mp (listMax_eq_none.mp hhi)
      subst this
      simp at hr
    | some hi =>
      have h1 : lo ≤ bucketOf f r.first_statement_date := listMin_le hlo _ hmem
      have h2 : bucketOf f r.first_statement_date ≤ hi := le_listMax hhi _ hmem
      have hk : bucketOf f r.first_statement_date ∈ resampleKeys f l :=
        (mem_resampleKeys_iff f l hlo hhi _).mpr ⟨h1, h2⟩
      have hnd : (resampleKeys f l).Nodup :=
        (resampleKeys_sorted f l).imp (fun h => ne_of_lt h)
      exact List.count_eq_one_of_mem hnd hk

theorem sum_map_add_distrib (ks : List ℤ) (u v : ℤ → ℚ) :
    (ks.map (fun k => u k + v k)).sum = (ks.map u).sum + (ks.map v).sum := by
  induction ks with
  | nil => simp
  | cons k ks ih =>
    simp only [List.map_cons, List.sum_cons, ih]
    ring

theorem sum_map_ite_notmem {a : ℤ} {c : ℚ} (ks : List ℤ) (h : a ∉ ks) :
    (ks.map (fun k => if a = k then c else 0)).sum = 0 := by
  induction ks with
  | nil => rfl
  | cons k ks ih =>
    simp only [List.map_cons, List.sum_cons]
    rw [if_neg (fun he => h (List.mem_cons.mpr (Or.inl he))),
      ih (fun hm => h (List.mem_cons_of_mem _ hm)), add_zero]

theorem sum_map_ite_count {a : ℤ} {c : ℚ} (ks : List ℤ) (h : ks.count a = 1) :
    (ks.map (fun k => if a = k then c else 0)).sum = c := by
  induction ks with
  | nil => simp at h
  | cons k ks ih =>
    simp only [List.map_cons, List.sum_cons]
    rw [List.count_cons] at h
    by_cases hak : a = k
    · subst hak
      have hz : ks.count a = 0 := by
        simp at h
        omega
      rw [if_pos rfl, sum_map_ite_notmem ks (List.count_eq_zero.mp hz), add_zero]
    · have hka : ¬(k = a) := fun he => hak he.symm
      have h1 : ks.count a = 1 := by
        simp [hka] at h
        omega
      rw [if_neg hak, ih h1, zero_add]

theorem sum_over_buckets (g : Summary → ℚ) (lab : Summary → ℤ) (ks : List ℤ)
    (l : List Summary) (h : ∀ r ∈ l, ks.count (lab r) = 1) :
    (ks.map (fun k => ((l.filter (fun r => decide (lab r = k))).map g).sum)).sum
      = (l.map g).sum := by
  induction l with
  | nil => simp
  | cons r rs ih =>
    have hr : ks.count (lab r) = 1 := h r (List.mem_cons_self r rs)
    have hih := ih (fun x hx => h x (List.mem_cons_of_mem _ hx))
    have hsplit : ∀ k : ℤ,
        ((List.filter (fun x => decide (lab x = k)) (r :: rs)).map g).sum
          = (if lab r = k then g r else 0)
            + ((List.filter (fun x => decide (lab x = k)) rs).map g).sum := by
      intro k
      by_cases hk : lab r = k
      · simp [List.filter_cons, hk]
      · simp [List.filter_cons, hk]
    rw [List.map_congr_left (fun k _ => hsplit k), sum_map_add_distrib,
      sum_map_ite_count ks hr, hih, List.map_cons, List.sum_cons]

/-! ### C7: lossless aggregation of advances -/

/-- C7: for every frequency, summing the per-bucket advance sums over all
resample buckets recovers the total advance over the whole segment: no
record is double counted or omitted by the bucketing. -/
theorem c7_lossless_advance_total (f : Freq) (l : List Summary) :
    ((resample f l).map (fun b => b.sumAdvance)).sum
      = (l.map (fun r => r.advance_amount)).sum := by
  unfold resample
  rw [List.map_map]
  exact sum_over_buckets (fun r => r.advance_amount)
    (fun r => bucketOf f r.first_statement_date) (resampleKeys f l) l
    (resampleKeys_count_one f l)

theorem sum_nonpos_of_forall (xs : List ℚ) (h : ∀ x ∈ xs, x ≤ 0) :
    xs.sum ≤ 0 := by
  induction xs with
  | nil => simp
  | cons x xs ih =>
    rw [List.sum_cons]
    have h1 := h x (List.mem_cons_self x xs)
    have h2 := ih (fun y hy => h y (List.mem_cons_of_mem _ hy))
    linarith

theorem abs_sum_of_nonpos (xs : List ℚ) (h : ∀ x ∈ xs, x ≤ 0) :
    |xs.sum| = (xs.map (fun x => |x|)).sum := by
  induction xs with
  | nil => simp
  | cons x xs ih =>
    have h1 := h x (List.mem_cons_self x xs)
    have htail : ∀ y ∈ xs, y ≤ 0 := fun y hy => h y (List.mem_cons_of_mem _ hy)
    have h2 := sum_nonpos_of_forall xs htail
    rw [List.sum_cons, List.map_cons, List.sum_cons, ← ih htail,
      abs_of_nonpos (by linarith), abs_of_nonpos h1, abs_of_nonpos h2, neg_add]

/-! ### C6: per-bucket aggregates -/

/-- C6: every resample bucket reports the advance sum, absolute
chargeback sum, record count and months-paid mean computed over exactly
the records whose first statement date falls in that bucket, and the
period label of every record occurs exactly once among the buckets, so
each record contributes to exactly one bucket.  The chargeback invariant
of the data source (chargeback amounts are sums of negative ledger
entries, hence nonpositive) is taken as a hypothesis; it turns the abs
of the bucket sum computed by the code into the sum of absolute values
named by the spec. -/
theorem c6_bucket_metrics (f : Freq) (l : List Summary)
    (hcb : ∀ r ∈ l, r.chargeback_amount ≤ 0) :
    (∀ b ∈ resample f l,
      b.sumAdvance = ((l.filter (fun r =>
        decide (bucketOf f r.first_statement_date = b.start))).map
          (fun r => r.advance_amount)).sum ∧
      b.sumChargebackAbs = ((l.filter (fun r =>
        decide (bucketOf f r.first_statement_date = b.start))).map
          (fun r => |r.chargeback_amount|)).sum ∧
      b.count = (l.filter (fun r =>
        decide (bucketOf f r.first_statement_date = b.start))).length ∧
      b.meanMonths = (if (l.filter (fun r =>
          decide (bucketOf f r.first_statement_date = b.start))).length = 0
        then none
        else some (((l.filter (fun r =>
          decide (bucketOf f r.first_statement_date = b.start))).map
            (fun r => (monthsPaid r : ℚ))).sum /
          (l.filter (fun r =>
            decide (bucketOf f r.first_statement_date = b.start))).length))) ∧
    (∀ r ∈ l, (resampleKeys f l).count (bucketOf f r.first_statement_date) = 1) := by
  refine ⟨?_, resampleKeys_count_one f l⟩
  intro b hb
  unfold resample at hb
  rcases List.mem_map.mp hb with ⟨k, hk, rfl⟩
  refine ⟨rfl, ?_, rfl, rfl⟩
  have hmem_cb : ∀ x ∈ (bucketMembers f k l).map (fun r => r.chargeback_amount),
      x ≤ 0 := by
    intro x hx
    rcases List.mem_map.mp hx with ⟨r, hr, rfl⟩
    exact hcb r (List.mem_filter.mp hr).1
  show |((bucketMembers f k l).map (fun r => r.chargeback_amount)).sum| = _
  rw [abs_sum_of_nonpos _ hmem_cb, List.map_map]
  rfl

/-- Concrete one-record segment used to witness C6. -/
def c6W : List Summary := [⟨1, 0, 100, 0⟩]

/-- C6 witness: the bucket-metrics theorem applied to a concrete segment
satisfying the nonpositive-chargeback hypothesis. -/
theorem c6_bucket_metrics_witness :
    (∀ r ∈ c6W, r.chargeback_amount ≤ 0) ∧
    ((∀ b ∈ resample Freq.day c6W,
      b.sumAdvance = ((c6W.filter (fun r =>
        decide (bucketOf Freq.day r.first_statement_date = b.start))).map
          (fun r => r.advance_amount)).sum ∧
      b.sumChargebackAbs = ((c6W.filter (fun r =>
        decide (bucketOf Freq.day r.first_statement_date = b.start))).map
          (fun r => |r.chargeback_amount|)).sum ∧
      b.count = (c6W.filter (fun r =>
        decide (bucketOf Freq.day r.first_statement_date = b.start))).length ∧
      b.meanMonths = (if (c6W.filter (fun r =>
          decide (bucketOf Freq.day r.first_statement_date = b.start))).length = 0
        then none
        else some (((c6W.filter (fun r =>
          decide (bucketOf Freq.day r.first_statement_date = b.start))).map
            (fun r => (monthsPaid r : ℚ))).sum /
          (c6W.filter (fun r =>
            decide (bucketOf Freq.day r.first_statement_date = b.start))).length))) ∧
    (∀ r ∈ c6W, (resampleKeys Freq.day c6W).count
      (bucketOf Freq.day r.first_statement_date) = 1)) :=
  ⟨by simp [c6W], c6_bucket_metrics Freq.day c6W (by simp [c6W])⟩

/-! ### C2: shape of the bucket sequence -/

theorem resample_starts (f : Freq) (l : List Summary) :
    (resample f l).map (fun b => b.start) = resampleKeys f l := by
  unfold resample
  rw [List.map_map,
    show ((fun b => b.start) ∘ fun k => mkBucket f k l) = fun k => k from
      funext fun k => rfl]
  exact List.map_id' _

theorem resampleKeys_convex (f : Freq) (l : List Summary) :
    ∀ a b k : ℤ, a ∈ resampleKeys f l → b ∈ resampleKeys f l →
      a ≤ k → k ≤ b → k ∈ resampleKeys f l := by
  intro a b k ha hb hak hkb
  cases hlo : listMin (l.map (fun r => bucketOf f r.first_statement_date)) with
  | none =>
    have := List.map_eq_nil_iff.mp (listMin_eq_none.mp hlo)
    subst this
    simp [resampleKeys, listMin] at ha
  | some lo =>
    cases hhi : listMax (l.map (fun r => bucketOf f r.first_statement_date)) with
    | none =>
      have := List.map_eq_nil_iff.mp (listMax_eq_none.mp hhi)
      subst this
      simp [resampleKeys, listMax] at ha
    | some hi =>
      have h1 := (mem_resampleKeys_iff f l hlo hhi a).mp ha
      have h2 := (mem_resampleKeys_iff f l hlo hhi b).mp hb
      exact (mem_resampleKeys_iff f l hlo hhi k).mpr ⟨by omega, by omega⟩

/-- A two-record segment whose dates are two days apart, so day
resampling must bridge an empty day between them. -/
def c2L : List Summary := [⟨1, 0, 100, -10⟩, ⟨2, 2, 50, 0⟩]

/-- C2 counterexample: resampling the two-record segment by Day produces
three buckets with record counts 1, 0, 1: the middle bucket covers a
period holding no record, refuting the claim that only buckets holding
at least one record appear. -/
theorem c2_counterexample :
    (resample Freq.day c2L).map (fun b => b.count) = [1, 0, 1] ∧
    (resample Freq.day c2L).any (fun b => b.count == 0) = true := by
  exact ⟨rfl, rfl⟩

/-- C2 (amended): for every frequency and segment the bucket sequence is
sorted strictly ascending by bucket start and the period of every record
appears exactly once among the bucket starts; moreover the sequence of
bucket starts is convex: every period lying between two bucket starts is
itself a bucket start, so periods between the earliest and latest record
that contain no record still get a (zero-filled) bucket. -/
theorem c2_buckets_sorted_convex (f : Freq) (l : List Summary) :
    ((resample f l).map (fun b => b.start)).Pairwise (· < ·) ∧
    (∀ r ∈ l, ((resample f l).map (fun b => b.start)).count
        (bucketOf f r.first_statement_date) = 1) ∧
    (∀ a b k : ℤ, a ∈ (resample f l).map (fun b => b.start) →
      b ∈ (resample f l).map (fun b => b.start) → a ≤ k → k ≤ b →
      k ∈ (resample f l).map (fun b => b.start)) := by
  rw [resample_starts]
  exact ⟨resampleKeys_sorted f l, resampleKeys_count_one f l,
    resampleKeys_convex f l⟩
